import Mathlib

/-!
Verification of the agent execution and tool resolution pipeline
(nestjs-langchain): shallow embedding of `SecurityMiddleware`,
`DefaultToolCreationStrategy`, `AgentService` and `BaseAgentProvider`,
with theorems settling the specification's claims.

JavaScript numbers for timestamps and counters are modelled as `Nat`
(timestamps are non-negative milliseconds); `remaining` is an `Int`
because the code can produce `maxRequests - 1 = -1`.  Fallible code is
modelled with `Except String`; `Map` state is an association list.
-/

set_option maxRecDepth 10000

namespace NestLang

/-! ## Rate limiter (`SecurityMiddleware.rateLimit`, part_004 lines 88-121) -/

/-- The `rateLimit` field of `SecurityConfig`: `{ maxRequests, windowMs }`. -/
structure RateLimitConfig where
  maxRequests : Nat
  windowMs : Nat
deriving Repr, DecidableEq

/-- One entry of `rateLimitStore`: `{ count, resetTime }`. -/
structure RateEntry where
  count : Nat
  resetTime : Nat
deriving Repr, DecidableEq

/-- Return value of `rateLimit`: `{ allowed, remaining, resetTime }`. -/
structure RateResult where
  allowed : Bool
  remaining : Int
  resetTime : Nat
deriving Repr, DecidableEq

/-- `this.rateLimitStore.get(key)` on the association-list model of the map. -/
def storeGet (store : List (String × RateEntry)) (key : String) : Option RateEntry :=
  match store with
  | [] => none
  | (k, e) :: rest => if k = key then some e else storeGet rest key

/-- `this.rateLimitStore.set(key, e)` on the association-list model of the map. -/
def storeSet (store : List (String × RateEntry)) (key : String) (e : RateEntry) :
    List (String × RateEntry) :=
  match store with
  | [] => [(key, e)]
  | (k, e0) :: rest => if k = key then (key, e) :: rest else (k, e0) :: storeSet rest key e

namespace SecurityMiddleware

/-- `SecurityMiddleware.rateLimit(key)`.  The mutable fields `this.config.rateLimit`
and `this.rateLimitStore` are passed in explicitly, together with `Date.now()`;
the updated store is returned alongside the result.  Mirrors the source:
no config short-circuits with `{allowed: true, remaining: -1, resetTime: 0}`;
a missing or expired entry is replaced by `{count: 1, resetTime: now + windowMs * 1000}`
and allowed; a full window (`count >= maxRequests`) is denied with `remaining = 0`;
otherwise the count is incremented and the request allowed. -/
def rateLimit (cfg : Option RateLimitConfig) (store : List (String × RateEntry))
    (key : String) (now : Nat) : RateResult × List (String × RateEntry) :=
  match cfg with
  | none => (⟨true, -1, 0⟩, store)
  | some c =>
    let resetTime := now + c.windowMs * 1000
    match storeGet store key with
    | none =>
      (⟨true, (c.maxRequests : Int) - 1, resetTime⟩, storeSet store key ⟨1, resetTime⟩)
    | some current =>
      if current.resetTime ≤ now then
        (⟨true, (c.maxRequests : Int) - 1, resetTime⟩, storeSet store key ⟨1, resetTime⟩)
      else if c.maxRequests ≤ current.count then
        (⟨false, 0, current.resetTime⟩, store)
      else
        (⟨true, (c.maxRequests : Int) - ((current.count + 1 : Nat) : Int), current.resetTime⟩,
          storeSet store key ⟨current.count + 1, current.resetTime⟩)

/-- A sequence of `rateLimit` checks for one key at the given times,
threading the store; returns the list of results and the final store. -/
def runChecks (cfg : Option RateLimitConfig) (key : String) :
    List (String × RateEntry) → List Nat → List RateResult × List (String × RateEntry)
  | store, [] => ([], store)
  | store, t :: ts =>
    let step := rateLimit cfg store key t
    let rest := runChecks cfg key step.2 ts
    (step.1 :: rest.1, rest.2)

end SecurityMiddleware

theorem storeGet_storeSet (store : List (String × RateEntry)) (key : String) (e : RateEntry) :
    storeGet (storeSet store key e) key = some e := by
  induction store with
  | nil => simp [storeGet, storeSet]
  | cons hd tl ih =>
    obtain ⟨k, e0⟩ := hd
    by_cases h : k = key
    · simp [storeGet, storeSet, h]
    · simp [storeGet, storeSet, h, ih]

/-- A step of `rateLimit` on a key whose stored window has not yet elapsed
(`now < current.resetTime`): a full window denies and leaves the store
unchanged; a non-full window increments and allows. -/
theorem rateLimit_in_window_step (c : RateLimitConfig) (store : List (String × RateEntry))
    (key : String) (now : Nat) (cur : RateEntry)
    (hget : storeGet store key = some cur) (hwin : now < cur.resetTime) :
    (c.maxRequests ≤ cur.count →
      SecurityMiddleware.rateLimit (some c) store key now = (⟨false, 0, cur.resetTime⟩, store)) ∧
    (cur.count < c.maxRequests →
      SecurityMiddleware.rateLimit (some c) store key now =
        (⟨true, (c.maxRequests : Int) - ((cur.count + 1 : Nat) : Int), cur.resetTime⟩,
          storeSet store key ⟨cur.count + 1, cur.resetTime⟩)) := by
  constructor
  · intro hful
    simp [SecurityMiddleware.rateLimit, hget, Nat.not_le.mpr hwin, hful]
  · intro hlt
    simp [SecurityMiddleware.rateLimit, hget, Nat.not_le.mpr hwin, Nat.not_le.mpr hlt]

/-- Characterisation of a run of in-window checks starting from a stored
entry `⟨c0, r⟩` with `c0 ≤ maxRequests`: the stored count becomes
`min (c0 + n) maxRequests`, the `i`-th check is allowed iff `c0 + i < maxRequests`,
and each denied check returns `⟨false, 0, r⟩`. -/
theorem runChecks_in_window (c : RateLimitConfig) (key : String) (r : Nat)
    (times : List Nat) (hin : ∀ t ∈ times, t < r) :
    ∀ (store : List (String × RateEntry)) (c0 : Nat),
      storeGet store key = some ⟨c0, r⟩ → c0 ≤ c.maxRequests →
      (SecurityMiddleware.runChecks (some c) key store times).1.length = times.length ∧
      storeGet (SecurityMiddleware.runChecks (some c) key store times).2 key =
        some ⟨min (c0 + times.length) c.maxRequests, r⟩ ∧
      ∀ i, i < times.length →
        ∃ res, (SecurityMiddleware.runChecks (some c) key store times).1.get? i = some res ∧
          res.allowed = decide (c0 + i < c.maxRequests) ∧
          (c.maxRequests ≤ c0 + i → res = ⟨false, 0, r⟩) := by
  induction times with
  | nil =>
    intro store c0 hget hle
    refine ⟨rfl, ?_, ?_⟩
    · simpa [SecurityMiddleware.runChecks, Nat.min_eq_left hle] using hget
    · intro i h
      exact absurd h (by simp)
  | cons t ts ih =>
    intro store c0 hget hle
    have ht : t < r := hin t (by simp)
    have hts : ∀ u ∈ ts, u < r := fun u hu => hin u (by simp [hu])
    by_cases hful : c.maxRequests ≤ c0
    · -- window already full: the check denies and leaves the store unchanged
      have hstep := (rateLimit_in_window_step c store key t ⟨c0, r⟩ hget ht).1 hful
      obtain ⟨hlen, hstore, hres⟩ := ih hts store c0 hget hle
      refine ⟨?_, ?_, ?_⟩
      · simp [SecurityMiddleware.runChecks, hstep, hlen]
      · simp only [SecurityMiddleware.runChecks, hstep]
        rw [hstore]
        congr 2
        simp only [List.length_cons]
        omega
      · intro i hilt
        simp only [List.length_cons] at hilt
        match i with
        | 0 =>
          refine ⟨⟨false, 0, r⟩, ?_, ?_, fun _ => rfl⟩
          · simp [SecurityMiddleware.runChecks, hstep]
          · have hnot : ¬ (c0 + 0 < c.maxRequests) := by omega
            exact (decide_eq_false hnot).symm
        | Nat.succ j =>
          obtain ⟨res, hsome, ha, hd⟩ := hres j (by omega)
          refine ⟨res, ?_, ?_, fun _ => hd (by omega)⟩
          · simp only [SecurityMiddleware.runChecks, hstep, List.get?_cons_succ]
            exact hsome
          · rw [ha, decide_eq_decide]
            omega
    · -- window not yet full: the check increments and allows
      have hlt : c0 < c.maxRequests := Nat.lt_of_not_le hful
      have hstep := (rateLimit_in_window_step c store key t ⟨c0, r⟩ hget ht).2 hlt
      have hget' : storeGet (storeSet store key ⟨c0 + 1, r⟩) key = some ⟨c0 + 1, r⟩ :=
        storeGet_storeSet store key _
      obtain ⟨hlen, hstore, hres⟩ := ih hts (storeSet store key ⟨c0 + 1, r⟩) (c0 + 1) hget' hlt
      refine ⟨?_, ?_, ?_⟩
      · simp [SecurityMiddleware.runChecks, hstep, hlen]
      · simp only [SecurityMiddleware.runChecks, hstep]
        rw [hstore]
        congr 2
        simp only [List.length_cons]
        omega
      · intro i hilt
        simp only [List.length_cons] at hilt
        match i with
        | 0 =>
          refine ⟨⟨true, (c.maxRequests : Int) - ((c0 + 1 : Nat) : Int), r⟩, ?_, ?_, ?_⟩
          · simp [SecurityMiddleware.runChecks, hstep]
          · have hyes : c0 + 0 < c.maxRequests := by omega
            exact (decide_eq_true hyes).symm
          · intro habs
            omega
        | Nat.succ j =>
          obtain ⟨res, hsome, ha, hd⟩ := hres j (by omega)
          refine ⟨res, ?_, ?_, fun hge => hd (by omega)⟩
          · simp only [SecurityMiddleware.runChecks, hstep, List.get?_cons_succ]
            exact hsome
          · rw [ha, decide_eq_decide]
            omega

/-- Claim C9: on the first request for a key, or on any request after the stored
window's reset time has elapsed, `rateLimit` replaces the entry with
`{count = 1, resetTime = now + window duration}` and allows the request; and with
`maxRequests = 1`, of two requests from the same key within one window the first
is allowed with `remaining = 0` and the second is denied. -/
theorem rateLimit_fresh_window_spec :
    (∀ (c : RateLimitConfig) (store : List (String × RateEntry)) (key : String) (now : Nat),
      (storeGet store key = none ∨
        ∃ cur, storeGet store key = some cur ∧ cur.resetTime ≤ now) →
      SecurityMiddleware.rateLimit (some c) store key now =
        (⟨true, (c.maxRequests : Int) - 1, now + c.windowMs * 1000⟩,
          storeSet store key ⟨1, now + c.windowMs * 1000⟩)) ∧
    (∀ (w : Nat) (key : String) (t1 t2 : Nat), t2 < t1 + w * 1000 →
      (SecurityMiddleware.rateLimit (some ⟨1, w⟩) [] key t1).1 = ⟨true, 0, t1 + w * 1000⟩ ∧
      (SecurityMiddleware.rateLimit (some ⟨1, w⟩)
          (SecurityMiddleware.rateLimit (some ⟨1, w⟩) [] key t1).2 key t2).1 =
        ⟨false, 0, t1 + w * 1000⟩) := by
  constructor
  · intro c store key now h
    rcases h with hnone | ⟨cur, hcur, hexp⟩
    · simp [SecurityMiddleware.rateLimit, hnone]
    · simp [SecurityMiddleware.rateLimit, hcur, hexp]
  · intro w key t1 t2 hwin
    have h1 : SecurityMiddleware.rateLimit (some ⟨1, w⟩) [] key t1 =
        (⟨true, 0, t1 + w * 1000⟩, [(key, ⟨1, t1 + w * 1000⟩)]) := by
      simp [SecurityMiddleware.rateLimit, storeGet, storeSet]
    refine ⟨by rw [h1], ?_⟩
    rw [h1]
    simp [SecurityMiddleware.rateLimit, storeGet, Nat.not_le.mpr hwin]

/-- Witness for C9 at concrete inputs: an expired entry is replaced, and the
two-request scenario with `maxRequests = 1`. -/
theorem rateLimit_fresh_window_spec_witness :
    (∃ cur, storeGet [("k", (⟨3, 5⟩ : RateEntry))] "k" = some cur ∧ cur.resetTime ≤ 7) ∧
    SecurityMiddleware.rateLimit (some ⟨2, 1⟩) [("k", ⟨3, 5⟩)] "k" 7 =
      (⟨true, (1 : Int), 1007⟩, [("k", ⟨1, 1007⟩)]) ∧
    (10 : Nat) < 0 + 1 * 1000 ∧
    (SecurityMiddleware.rateLimit (some ⟨1, 1⟩) [] "k" 0).1 = ⟨true, 0, 0 + 1 * 1000⟩ ∧
    (SecurityMiddleware.rateLimit (some ⟨1, 1⟩)
        (SecurityMiddleware.rateLimit (some ⟨1, 1⟩) [] "k" 0).2 "k" 10).1 =
      ⟨false, 0, 0 + 1 * 1000⟩ := by
  refine ⟨⟨⟨3, 5⟩, by decide, by decide⟩, ?_, by decide, ?_, ?_⟩
  · have h := rateLimit_fresh_window_spec.1 ⟨2, 1⟩ [("k", ⟨3, 5⟩)] "k" 7
      (Or.inr ⟨⟨3, 5⟩, by decide, by decide⟩)
    simpa [storeSet] using h
  · exact (rateLimit_fresh_window_spec.2 1 "k" 0 10 (by decide)).1
  · exact (rateLimit_fresh_window_spec.2 1 "k" 0 10 (by decide)).2

/-- Claim C1, counterexample: with a configured `maxRequests = 0` the very first
check for a fresh key — which is the `(maxRequests + 1)`-th check of the window —
is admitted with `allowed = true`, and the stored count `1` exceeds
`maxRequests = 0` while `allowed = true` was returned. -/
theorem rateLimit_maxRequests_zero_admits :
    (SecurityMiddleware.rateLimit (some ⟨0, 1⟩) [] "k" 0).1.allowed = true ∧
    storeGet (SecurityMiddleware.rateLimit (some ⟨0, 1⟩) [] "k" 0).2 "k" =
      some ⟨1, 1000⟩ ∧
    (⟨0, 1⟩ : RateLimitConfig).maxRequests < 1 := by
  decide

/-- Claim C1 (amended: for `maxRequests ≥ 1`): starting from a fresh key, for a
sequence of checks all falling before the window's reset time, the `i`-th check
(0-based) is allowed exactly when `i < maxRequests`, every check from the
`(maxRequests + 1)`-th on is denied with `remaining = 0` and the first window's
reset time, and the stored count stays at `min n maxRequests ≤ maxRequests`. -/
theorem rateLimit_window_admission_bound (c : RateLimitConfig) (key : String)
    (store : List (String × RateEntry)) (t0 : Nat) (rest : List Nat)
    (hmax : 1 ≤ c.maxRequests) (hfresh : storeGet store key = none)
    (hwin : ∀ t ∈ rest, t < t0 + c.windowMs * 1000) :
    (SecurityMiddleware.runChecks (some c) key store (t0 :: rest)).1.length =
      rest.length + 1 ∧
    storeGet (SecurityMiddleware.runChecks (some c) key store (t0 :: rest)).2 key =
      some ⟨min (rest.length + 1) c.maxRequests, t0 + c.windowMs * 1000⟩ ∧
    (∀ e, storeGet (SecurityMiddleware.runChecks (some c) key store (t0 :: rest)).2 key =
      some e → e.count ≤ c.maxRequests) ∧
    (∀ i, i < rest.length + 1 →
      ∃ res, (SecurityMiddleware.runChecks (some c) key store (t0 :: rest)).1.get? i =
          some res ∧
        res.allowed = decide (i < c.maxRequests) ∧
        (c.maxRequests ≤ i → res = ⟨false, 0, t0 + c.windowMs * 1000⟩)) := by
  have hstep : SecurityMiddleware.rateLimit (some c) store key t0 =
      (⟨true, (c.maxRequests : Int) - 1, t0 + c.windowMs * 1000⟩,
        storeSet store key ⟨1, t0 + c.windowMs * 1000⟩) := by
    simp [SecurityMiddleware.rateLimit, hfresh]
  have hget' : storeGet (storeSet store key ⟨1, t0 + c.windowMs * 1000⟩) key =
      some ⟨1, t0 + c.windowMs * 1000⟩ := storeGet_storeSet store key _
  obtain ⟨hlen, hstore, hres⟩ :=
    runChecks_in_window c key (t0 + c.windowMs * 1000) rest hwin
      (storeSet store key ⟨1, t0 + c.windowMs * 1000⟩) 1 hget' hmax
  refine ⟨?_, ?_, ?_, ?_⟩
  · simp [SecurityMiddleware.runChecks, hstep, hlen]
  · simp only [SecurityMiddleware.runChecks, hstep]
    rw [hstore]
    congr 2
    omega
  · intro e he
    simp only [SecurityMiddleware.runChecks, hstep] at he
    rw [hstore] at he
    cases he
    simp only []
    omega
  · intro i hilt
    match i with
    | 0 =>
      refine ⟨⟨true, (c.maxRequests : Int) - 1, t0 + c.windowMs * 1000⟩, ?_, ?_, ?_⟩
      · simp [SecurityMiddleware.runChecks, hstep]
      · exact (decide_eq_true (by omega : (0 : Nat) < c.maxRequests)).symm
      · intro habs
        omega
    | Nat.succ j =>
      obtain ⟨res, hsome, ha, hd⟩ := hres j (by omega)
      refine ⟨res, ?_, ?_, fun hge => hd (by omega)⟩
      · simp only [SecurityMiddleware.runChecks, hstep, List.get?_cons_succ]
        exact hsome
      · rw [ha, decide_eq_decide]
        omega

/-- Witness for the amended C1: config `{maxRequests := 2, windowMs := 1}`, four
checks at times `0, 1, 2, 3`; the third check (index 2) is denied with
`remaining = 0`. -/
theorem rateLimit_window_admission_bound_witness :
    (1 ≤ (⟨2, 1⟩ : RateLimitConfig).maxRequests) ∧
    storeGet ([] : List (String × RateEntry)) "k" = none ∧
    (∀ t ∈ [1, 2, 3], t < 0 + (⟨2, 1⟩ : RateLimitConfig).windowMs * 1000) ∧
    (∃ res, (SecurityMiddleware.runChecks (some ⟨2, 1⟩) "k" [] [0, 1, 2, 3]).1.get? 2 =
        some res ∧
      res.allowed = decide (2 < (⟨2, 1⟩ : RateLimitConfig).maxRequests) ∧
      ((⟨2, 1⟩ : RateLimitConfig).maxRequests ≤ 2 →
        res = ⟨false, 0, 0 + (⟨2, 1⟩ : RateLimitConfig).windowMs * 1000⟩)) := by
  refine ⟨by decide, by decide, by decide, ?_⟩
  exact (rateLimit_window_admission_bound ⟨2, 1⟩ "k" [] 0 [1, 2, 3]
    (by decide) (by decide) (by decide)).2.2.2 2 (by decide)

/-! ## Input guard (`SecurityMiddleware.validateInput` / `sanitizeInput`,
part_004 lines 32-202)

Strings are handled as `List Char`; `String.length` counts characters where
JavaScript counts UTF-16 code units (they agree on the inputs considered
here).  The regular expressions of the source are translated into executable
scanners with the same matching discipline (leftmost match, greedy or lazy as
in the pattern). -/

/-- Characters matched by JavaScript `\s` (also removed by `String.trim`). -/
def isJsWhitespace (c : Char) : Bool :=
  c == ' ' || c == '\t' || c == '\n' || c == Char.ofNat 0x0B || c == Char.ofNat 0x0C ||
  c == '\r' || c == Char.ofNat 0xA0 || c == Char.ofNat 0x1680 ||
  (0x2000 ≤ c.toNat && c.toNat ≤ 0x200A) || c == Char.ofNat 0x2028 ||
  c == Char.ofNat 0x2029 || c == Char.ofNat 0x202F || c == Char.ofNat 0x205F ||
  c == Char.ofNat 0x3000 || c == Char.ofNat 0xFEFF

/-- Characters removed by the control-character strip
`[\x00-\x08\x0B\x0C\x0E-\x1F\x7F]` (newline, tab and carriage return are kept). -/
def isStrippedControl (c : Char) : Bool :=
  c.toNat ≤ 0x08 || c.toNat == 0x0B || c.toNat == 0x0C ||
  (0x0E ≤ c.toNat && c.toNat ≤ 0x1F) || c.toNat == 0x7F

/-- The whitespace-normalisation pass `.replace(/\s+/g, ' ')`: every maximal
run of `\s` characters becomes a single space.  The flag records whether the
previous character was part of a whitespace run already replaced. -/
def collapseWsAux : Bool → List Char → List Char
  | _, [] => []
  | prevWs, c :: cs =>
    if isJsWhitespace c then
      if prevWs then collapseWsAux true cs
      else ' ' :: collapseWsAux true cs
    else c :: collapseWsAux false cs

/-- JavaScript `String.trim`: whitespace removed from both ends. -/
def jsTrim (l : List Char) : List Char :=
  List.rdropWhile isJsWhitespace (l.dropWhile isJsWhitespace)

/-- List-level body of `sanitizeInput`: strip null bytes, strip control
characters (except newline and tab), collapse whitespace runs to one space,
trim. -/
def sanitizeList (l : List Char) : List Char :=
  jsTrim (collapseWsAux false
    ((l.filter (fun c => c != Char.ofNat 0)).filter (fun c => !isStrippedControl c)))

/-- `SecurityMiddleware.sanitizeInput`: the four `replace`/`trim` passes of the
source, chained on the string's characters. -/
def SecurityMiddleware.sanitizeInput (s : String) : String :=
  String.mk (sanitizeList s.data)

/-- JavaScript `\w`: ASCII letters, digits and underscore, for `\b` boundaries. -/
def isWordChar (c : Char) : Bool :=
  c.isAlphanum || c == '_'

/-- Whether the position before the scanned tail is a `\b` boundary, given the
preceding character (`none` at the start of the string). -/
def boundaryBefore : Option Char → Bool
  | none => true
  | some c => !isWordChar c

/-- Whether a `\b` boundary follows, given the rest of the input. -/
def boundaryAfterL : List Char → Bool
  | [] => true
  | c :: _ => !isWordChar c

/-- Scan for an occurrence of `word` delimited by `\b` on both sides,
tracking the character preceding the current position. -/
def hasWordBoundaryAux (word : List Char) : Option Char → List Char → Bool
  | pre, [] => word.isPrefixOf ([] : List Char) && boundaryBefore pre
  | pre, c :: cs =>
    (word.isPrefixOf (c :: cs) && boundaryBefore pre &&
      boundaryAfterL ((c :: cs).drop word.length)) ||
    hasWordBoundaryAux word (some c) cs

/-- Test `/\b(word)\b/i` on the (already lowercased) input for a lowercase word. -/
def containsWordCI (input : List Char) (word : String) : Bool :=
  hasWordBoundaryAux word.data none input

/-- The SQL-injection keywords of `containsMaliciousContent`. -/
def sqlKeywords : List String :=
  ["union", "select", "insert", "update", "delete", "drop", "create", "alter"]

/-- The command-injection keywords of `containsMaliciousContent`. -/
def cmdKeywords : List String :=
  ["cmd", "powershell", "bash", "sh", "exec", "system", "eval"]

/-- The suspicious file extensions of `containsMaliciousContent`. -/
def fileExtensions : List String :=
  [".php", ".asp", ".jsp", ".exe", ".bat", ".cmd", ".ps1"]

/-- After `<script\b`, the XSS pattern consumes `[^<]*` chunks whose leading
`<` does not open `</script>`, and matches on the first `</script>` found. -/
def scriptScan : List Char → Bool
  | [] => false
  | c :: cs =>
    if c == '<' then
      if ("</script>".data).isPrefixOf (c :: cs) then true
      else scriptScan cs
    else scriptScan cs

/-- Search for the XSS pattern
`<script\b[^<]*(?:(?!<\/script>)<[^<]*)*<\/script>` on lowercased input. -/
def scriptTagSearch : List Char → Bool
  | [] => false
  | c :: cs =>
    (("<script".data).isPrefixOf (c :: cs) &&
      boundaryAfterL ((c :: cs).drop 7) && scriptScan ((c :: cs).drop 7)) ||
    scriptTagSearch cs

/-- Whether `needle` occurs as a contiguous substring of `hay`. -/
def listIsInfix (needle : List Char) : List Char → Bool
  | [] => needle.isEmpty
  | c :: cs => needle.isPrefixOf (c :: cs) || listIsInfix needle cs

/-- `SecurityMiddleware.containsMaliciousContent`: SQL keywords, script tags,
command keywords (all case-insensitive via lowercasing), the path traversal
sequence `../`, or a suspicious file-extension suffix. -/
def SecurityMiddleware.containsMaliciousContent (input : List Char) : Bool :=
  let low := input.map Char.toLower
  sqlKeywords.any (fun w => containsWordCI low w) ||
  scriptTagSearch low ||
  cmdKeywords.any (fun w => containsWordCI low w) ||
  listIsInfix ("../".data) input ||
  fileExtensions.any (fun e => (e.data).isSuffixOf low)

/-- Case-insensitive prefix test against an already lowercase pattern. -/
def isPrefixOfCI (pat : List Char) (l : List Char) : Bool :=
  pat.isPrefixOf ((l.take pat.length).map Char.toLower)

/-- The `[^\s]+` part of the URL pattern needs at least one non-whitespace
character after the scheme. -/
def hasNonWsHead : List Char → Bool
  | [] => false
  | c :: _ => !isJsWhitespace c

/-- Length bound used for the termination of the URL scanner. -/
theorem dropWhile_drop_length_lt (q : Char → Bool) (n : Nat) (hn : 0 < n)
    (c : Char) (cs : List Char) :
    (List.dropWhile q (List.drop n (c :: cs))).length < (c :: cs).length := by
  have h := (List.dropWhile_sublist (l := List.drop n (c :: cs)) q).length_le
  simp only [List.length_drop, List.length_cons] at *
  omega

/-- All matches of `/https?:\/\/[^\s]+/gi`: leftmost, greedy, non-overlapping,
returned with their original casing. -/
def extractUrlsList : List Char → List (List Char)
  | [] => []
  | c :: cs =>
    if isPrefixOfCI ("https://".data) (c :: cs) &&
        hasNonWsHead ((c :: cs).drop 8) then
      ((c :: cs).take 8 ++ ((c :: cs).drop 8).takeWhile (fun x => !isJsWhitespace x)) ::
        extractUrlsList (((c :: cs).drop 8).dropWhile (fun x => !isJsWhitespace x))
    else if isPrefixOfCI ("http://".data) (c :: cs) &&
        hasNonWsHead ((c :: cs).drop 7) then
      ((c :: cs).take 7 ++ ((c :: cs).drop 7).takeWhile (fun x => !isJsWhitespace x)) ::
        extractUrlsList (((c :: cs).drop 7).dropWhile (fun x => !isJsWhitespace x))
    else extractUrlsList cs
termination_by l => l.length
decreasing_by
  all_goals
    first
      | exact dropWhile_drop_length_lt _ 8 (by omega) _ _
      | exact dropWhile_drop_length_lt _ 7 (by omega) _ _
      | (simp only [List.length_cons]; omega)

/-- `SecurityMiddleware.containsExternalUrls`: the URL pattern matches somewhere. -/
def SecurityMiddleware.containsExternalUrls (input : List Char) : Bool :=
  !(extractUrlsList input).isEmpty

/-- The hostname as produced by `new URL(url)` for an `http(s)://` URL: the
authority up to `/?#`, userinfo removed, port removed, lowercased; `none`
models the constructor throwing (empty host). -/
def hostnameOf (url : List Char) : Option (List Char) :=
  let afterScheme :=
    if isPrefixOfCI ("https://".data) url then url.drop 8 else url.drop 7
  let authority := afterScheme.takeWhile (fun c => c != '/' && c != '?' && c != '#')
  let afterUser := (authority.reverse.takeWhile (fun c => c != '@')).reverse
  let host := afterUser.takeWhile (fun c => c != ':')
  if host.isEmpty then none else some (host.map Char.toLower)

/-- `SecurityMiddleware.isAllowedDomain`: the hostname equals an allowed entry
or ends with `"." ++ entry`; an unparsable URL is not allowed. -/
def SecurityMiddleware.isAllowedDomain (allowed : List String) (url : List Char) : Bool :=
  match hostnameOf url with
  | none => false
  | some domain =>
    allowed.any (fun a => domain == a.data || (('.' :: a.data).isSuffixOf domain))

/-- The `SecurityConfig` fields consumed by `validateInput` (the `rateLimit`
field is modelled separately).  `maxInputLength = some 0` mirrors JavaScript
falsiness of `0`, which disables the length check in the source. -/
structure SecurityConfig where
  maxInputLength : Option Nat
  allowedDomains : Option (List String)
  sanitizeInput : Bool
deriving Repr, DecidableEq

/-- Result of `validateInput`: `{ isValid, sanitizedInput?, errors? }`. -/
structure ValidationResult where
  isValid : Bool
  sanitizedInput : Option String
  errors : Option (List String)
deriving Repr, DecidableEq

/-- Error list contributed by the length check
(`config.maxInputLength && input.length > config.maxInputLength`). -/
def lengthStepErrors (cfg : SecurityConfig) (input : String) : List String :=
  match cfg.maxInputLength with
  | some m =>
    if m ≠ 0 ∧ m < input.length then
      ["Input length exceeds maximum allowed length of " ++ toString m ++ " characters"]
    else []
  | none => []

/-- The input the later checks run on: sanitized when `config.sanitizeInput`
is set, otherwise the raw input. -/
def effectiveSanitized (cfg : SecurityConfig) (input : String) : String :=
  if cfg.sanitizeInput then SecurityMiddleware.sanitizeInput input else input

/-- Error list contributed by the malicious-content check. -/
def maliciousStepErrors (cfg : SecurityConfig) (input : String) : List String :=
  if SecurityMiddleware.containsMaliciousContent (effectiveSanitized cfg input).data then
    ["Input contains potentially malicious content"]
  else []

/-- Error list contributed by the domain-allowlist check. -/
def domainStepErrors (cfg : SecurityConfig) (input : String) : List String :=
  match cfg.allowedDomains with
  | some allowed =>
    if SecurityMiddleware.containsExternalUrls (effectiveSanitized cfg input).data then
      let disallowed := (extractUrlsList (effectiveSanitized cfg input).data).filter
        (fun u => !SecurityMiddleware.isAllowedDomain allowed u)
      if disallowed.isEmpty then []
      else ["External URLs not allowed: " ++
        String.intercalate ", " (disallowed.map String.mk)]
    else []
  | none => []

/-- `SecurityMiddleware.validateInput`: an empty input short-circuits with a
single error; otherwise the three checks append their errors in order, the
result is valid iff the list stayed empty, and `sanitizedInput` is populated
exactly on validity.  (A non-string input, the other half of the
`!input || typeof input !== 'string'` guard, is unrepresentable here since
the embedding is typed.) -/
def SecurityMiddleware.validateInput (cfg : SecurityConfig) (input : String) :
    ValidationResult :=
  if input = "" then
    ⟨false, none, some ["Input must be a non-empty string"]⟩
  else
    let errors := lengthStepErrors cfg input ++ maliciousStepErrors cfg input ++
      domainStepErrors cfg input
    ⟨errors.isEmpty,
      if errors.isEmpty then some (effectiveSanitized cfg input) else none,
      if errors.isEmpty then none else some errors⟩

/-- Claim C7: `validateInput` returns `isValid = true` iff no validation step
produced an error; `sanitizedInput` is present iff the result is valid (and is
then the effective sanitized input); an empty input short-circuits with exactly
one error; otherwise the errors of the failing steps are all reported
together, concatenated in step order. -/
theorem validateInput_aggregation (cfg : SecurityConfig) (input : String) :
    ((SecurityMiddleware.validateInput cfg input).isValid = true ↔
      (SecurityMiddleware.validateInput cfg input).errors = none) ∧
    ((SecurityMiddleware.validateInput cfg input).sanitizedInput.isSome = true ↔
      (SecurityMiddleware.validateInput cfg input).isValid = true) ∧
    ((SecurityMiddleware.validateInput cfg input).isValid = true → input ≠ "" →
      (SecurityMiddleware.validateInput cfg input).sanitizedInput =
        some (effectiveSanitized cfg input)) ∧
    (input = "" →
      SecurityMiddleware.validateInput cfg input =
        ⟨false, none, some ["Input must be a non-empty string"]⟩) ∧
    (input ≠ "" →
      (SecurityMiddleware.validateInput cfg input).errors =
        (if (lengthStepErrors cfg input ++ maliciousStepErrors cfg input ++
              domainStepErrors cfg input).isEmpty then none
          else some (lengthStepErrors cfg input ++ maliciousStepErrors cfg input ++
              domainStepErrors cfg input))) := by
  by_cases hemp : input = ""
  · refine ⟨?_, ?_, ?_, ?_, ?_⟩ <;>
      simp [SecurityMiddleware.validateInput, hemp]
  · by_cases herr : (lengthStepErrors cfg input ++ maliciousStepErrors cfg input ++
        domainStepErrors cfg input).isEmpty = true
    · refine ⟨?_, ?_, ?_, ?_, ?_⟩ <;>
        simp [SecurityMiddleware.validateInput, hemp, herr]
    · refine ⟨?_, ?_, ?_, ?_, ?_⟩ <;>
        simp [SecurityMiddleware.validateInput, hemp, herr]

/-- Witness for C7: the empty input short-circuits with exactly one error, and
a benign non-empty input is valid with `sanitizedInput` present. -/
theorem validateInput_aggregation_witness :
    SecurityMiddleware.validateInput ⟨none, none, false⟩ "" =
      ⟨false, none, some ["Input must be a non-empty string"]⟩ ∧
    (SecurityMiddleware.validateInput ⟨none, none, false⟩ "hello").errors =
      (if (lengthStepErrors ⟨none, none, false⟩ "hello" ++
            maliciousStepErrors ⟨none, none, false⟩ "hello" ++
            domainStepErrors ⟨none, none, false⟩ "hello").isEmpty then none
        else some (lengthStepErrors ⟨none, none, false⟩ "hello" ++
            maliciousStepErrors ⟨none, none, false⟩ "hello" ++
            domainStepErrors ⟨none, none, false⟩ "hello")) :=
  ⟨(validateInput_aggregation ⟨none, none, false⟩ "").2.2.2.1 rfl,
    (validateInput_aggregation ⟨none, none, false⟩ "hello").2.2.2.2 (by decide)⟩

/-! ## Idempotence of `sanitizeInput` (claim C8) -/

/-- The head of the list, if any, is not whitespace. -/
def headNotWs : List Char → Bool
  | [] => true
  | c :: _ => !isJsWhitespace c

/-- No two adjacent whitespace characters occur. -/
def noAdjWs : List Char → Bool
  | [] => true
  | [_] => true
  | a :: b :: rest => (!(isJsWhitespace a && isJsWhitespace b)) && noAdjWs (b :: rest)

theorem noAdjWs_tail {a : Char} {l : List Char} (h : noAdjWs (a :: l) = true) :
    noAdjWs l = true := by
  cases l with
  | nil => rfl
  | cons b bs =>
    simp only [noAdjWs, Bool.and_eq_true] at h
    exact h.2

theorem noAdjWs_cons_of {a : Char} {l : List Char}
    (h : headNotWs l = true ∨ isJsWhitespace a = false)
    (hl : noAdjWs l = true) : noAdjWs (a :: l) = true := by
  cases l with
  | nil => rfl
  | cons b bs =>
    simp only [noAdjWs, Bool.and_eq_true]
    refine ⟨?_, hl⟩
    rcases h with h | h
    · simp only [headNotWs, Bool.not_eq_true'] at h
      simp [h]
    · simp [h]

theorem mem_collapseWsAux {c : Char} :
    ∀ (l : List Char) (f : Bool), c ∈ collapseWsAux f l → c = ' ' ∨ c ∈ l := by
  intro l
  induction l with
  | nil => intro f h; simp [collapseWsAux] at h
  | cons a as ih =>
    intro f h
    by_cases hw : isJsWhitespace a = true
    · cases f with
      | true =>
        simp only [collapseWsAux, hw, if_pos] at h
        rcases ih true h with h1 | h1
        · exact Or.inl h1
        · exact Or.inr (List.mem_cons_of_mem a h1)
      | false =>
        simp only [collapseWsAux, hw, if_pos] at h
        rcases List.mem_cons.mp h with h1 | h1
        · exact Or.inl h1
        · rcases ih true h1 with h2 | h2
          · exact Or.inl h2
          · exact Or.inr (List.mem_cons_of_mem a h2)
    · simp only [collapseWsAux, hw] at h
      simp only [Bool.false_eq_true, if_false] at h
      rcases List.mem_cons.mp h with h1 | h1
      · exact Or.inr (h1 ▸ List.mem_cons_self a as)
      · rcases ih false h1 with h2 | h2
        · exact Or.inl h2
        · exact Or.inr (List.mem_cons_of_mem a h2)

theorem ws_mem_collapseWsAux {c : Char} :
    ∀ (l : List Char) (f : Bool), c ∈ collapseWsAux f l →
      isJsWhitespace c = true → c = ' ' := by
  intro l
  induction l with
  | nil => intro f h; simp [collapseWsAux] at h
  | cons a as ih =>
    intro f h hws
    by_cases hw : isJsWhitespace a = true
    · cases f with
      | true =>
        simp only [collapseWsAux, hw, if_pos] at h
        exact ih true h hws
      | false =>
        simp only [collapseWsAux, hw, if_pos] at h
        rcases List.mem_cons.mp h with h1 | h1
        · exact h1
        · exact ih true h1 hws
    · simp only [collapseWsAux, hw] at h
      simp only [Bool.false_eq_true, if_false] at h
      rcases List.mem_cons.mp h with h1 | h1
      · exact absurd (h1 ▸ hws) (by simp [hw])
      · exact ih false h1 hws

theorem collapseWsAux_noAdj_head :
    ∀ (l : List Char) (f : Bool),
      noAdjWs (collapseWsAux f l) = true ∧
      (f = true → headNotWs (collapseWsAux f l) = true) := by
  intro l
  induction l with
  | nil => intro f; exact ⟨rfl, fun _ => rfl⟩
  | cons a as ih =>
    intro f
    by_cases hw : isJsWhitespace a = true
    · cases f with
      | true =>
        simpa only [collapseWsAux, hw, if_pos] using ih true
      | false =>
        simp only [collapseWsAux, hw, if_pos]
        refine ⟨?_, ?_⟩
        · exact noAdjWs_cons_of (Or.inl ((ih true).2 rfl)) (ih true).1
        · intro h
          exact absurd h (by simp)
    · simp only [collapseWsAux, hw, Bool.false_eq_true, if_false]
      refine ⟨noAdjWs_cons_of (Or.inr (by simpa using hw)) (ih false).1, fun _ => ?_⟩
      simp [headNotWs, hw]

theorem collapseWsAux_eq_self :
    ∀ (l : List Char),
      (∀ c ∈ l, isJsWhitespace c = true → c = ' ') → noAdjWs l = true →
      collapseWsAux false l = l ∧
      (headNotWs l = true → collapseWsAux true l = l) := by
  intro l
  induction l with
  | nil => intro _ _; exact ⟨rfl, fun _ => rfl⟩
  | cons a as ih =>
    intro hall hadj
    have hall' : ∀ c ∈ as, isJsWhitespace c = true → c = ' ' :=
      fun c hc => hall c (List.mem_cons_of_mem a hc)
    have hadj' : noAdjWs as = true := noAdjWs_tail hadj
    by_cases hw : isJsWhitespace a = true
    · have ha : a = ' ' := hall a (List.mem_cons_self a as) hw
      have hhead : headNotWs as = true := by
        cases as with
        | nil => rfl
        | cons b bs =>
          simp only [noAdjWs, Bool.and_eq_true] at hadj
          have := hadj.1
          simp only [headNotWs]
          simp only [hw, Bool.true_and, Bool.not_eq_true'] at this ⊢
          exact this
      constructor
      · subst ha
        simp [collapseWsAux, hw, (ih hall' hadj').2 hhead]
      · intro h
        simp only [headNotWs, hw] at h
        exact absurd h (by simp)
    · have h1 : collapseWsAux false as = as := (ih hall' hadj').1
      constructor
      · simp only [collapseWsAux, hw, Bool.false_eq_true, if_false, h1]
      · intro _
        simp only [collapseWsAux, hw, Bool.false_eq_true, if_false, h1]

theorem headNotWs_dropWhileWs (l : List Char) :
    headNotWs (l.dropWhile isJsWhitespace) = true := by
  induction l with
  | nil => rfl
  | cons c cs ih =>
    by_cases hw : isJsWhitespace c = true
    · simpa [List.dropWhile_cons, hw] using ih
    · simp [List.dropWhile_cons, hw, headNotWs]

theorem headNotWs_of_isPrefix {l₁ l₂ : List Char} (h : l₁ <+: l₂)
    (h2 : headNotWs l₂ = true) : headNotWs l₁ = true := by
  obtain ⟨t, rfl⟩ := h
  cases l₁ with
  | nil => rfl
  | cons a as => simpa [headNotWs, List.cons_append] using h2

theorem noAdjWs_append_left :
    ∀ (l₁ l₂ : List Char), noAdjWs (l₁ ++ l₂) = true → noAdjWs l₁ = true := by
  intro l₁
  induction l₁ with
  | nil => intro _ _; rfl
  | cons a as ih =>
    intro l₂ h
    cases as with
    | nil => rfl
    | cons b bs =>
      simp only [List.cons_append, noAdjWs, Bool.and_eq_true] at h ⊢
      exact ⟨h.1, ih l₂ h.2⟩

theorem noAdjWs_append_right :
    ∀ (t l : List Char), noAdjWs (t ++ l) = true → noAdjWs l = true := by
  intro t
  induction t with
  | nil => intro l h; exact h
  | cons a ts ih =>
    intro l h
    exact ih l (noAdjWs_tail (by simpa [List.cons_append] using h))

theorem mem_jsTrim {c : Char} {l : List Char} (h : c ∈ jsTrim l) : c ∈ l := by
  have h1 : c ∈ l.dropWhile isJsWhitespace :=
    (List.rdropWhile_prefix (l := l.dropWhile isJsWhitespace)
      (p := isJsWhitespace)).sublist.subset h
  exact (List.dropWhile_suffix (l := l) isJsWhitespace).sublist.subset h1

theorem noAdjWs_jsTrim {l : List Char} (h : noAdjWs l = true) :
    noAdjWs (jsTrim l) = true := by
  have h1 : noAdjWs (l.dropWhile isJsWhitespace) = true := by
    obtain ⟨t, ht⟩ := List.dropWhile_suffix (l := l) isJsWhitespace
    exact noAdjWs_append_right t _ (ht.symm ▸ h)
  obtain ⟨t, ht⟩ := List.rdropWhile_prefix (l := l.dropWhile isJsWhitespace)
    (p := isJsWhitespace)
  exact noAdjWs_append_left _ t (ht.symm ▸ h1)

theorem headNotWs_jsTrim (l : List Char) : headNotWs (jsTrim l) = true :=
  headNotWs_of_isPrefix
    (List.rdropWhile_prefix (l := l.dropWhile isJsWhitespace) (p := isJsWhitespace))
    (headNotWs_dropWhileWs l)

theorem lastNotWs_jsTrim (l : List Char) :
    ∀ hne : jsTrim l ≠ [], isJsWhitespace ((jsTrim l).getLast hne) = false := by
  intro hne
  have h := List.rdropWhile_last_not (l := l.dropWhile isJsWhitespace)
    (p := isJsWhitespace) hne
  simpa using h

theorem dropWhileWs_eq_self {l : List Char} (h : headNotWs l = true) :
    l.dropWhile isJsWhitespace = l := by
  cases l with
  | nil => rfl
  | cons c cs =>
    simp only [headNotWs, Bool.not_eq_true'] at h
    simp [List.dropWhile_cons, h]

theorem jsTrim_eq_self {l : List Char} (hh : headNotWs l = true)
    (hl : ∀ hne : l ≠ [], isJsWhitespace (l.getLast hne) = false) :
    jsTrim l = l := by
  unfold jsTrim
  rw [dropWhileWs_eq_self hh]
  exact List.rdropWhile_eq_self_iff.mpr (fun hne => by simp [hl hne])

/-- Characters surviving `sanitizeList` are non-null, non-control, and any
whitespace among them is a plain space. -/
theorem sanitizeList_chars {c : Char} {l : List Char} (h : c ∈ sanitizeList l) :
    (c != Char.ofNat 0) = true ∧ (!isStrippedControl c) = true ∧
    (isJsWhitespace c = true → c = ' ') := by
  have h1 : c ∈ collapseWsAux false
      ((l.filter (fun x => x != Char.ofNat 0)).filter (fun x => !isStrippedControl x)) :=
    mem_jsTrim h
  have hws : isJsWhitespace c = true → c = ' ' := ws_mem_collapseWsAux _ false h1
  rcases mem_collapseWsAux _ false h1 with hsp | hmem
  · subst hsp
    exact ⟨by decide, by decide, fun _ => rfl⟩
  · have h2 := (List.mem_filter.mp hmem).2
    have h3 := (List.mem_filter.mp (List.mem_filter.mp hmem).1).2
    exact ⟨h3, h2, hws⟩

theorem sanitizeList_idem (l : List Char) :
    sanitizeList (sanitizeList l) = sanitizeList l := by
  have hchars := fun c (hc : c ∈ sanitizeList l) => sanitizeList_chars hc
  have hf1 : (sanitizeList l).filter (fun x => x != Char.ofNat 0) = sanitizeList l :=
    List.filter_eq_self.mpr (fun c hc => (hchars c hc).1)
  have hf2 : (sanitizeList l).filter (fun x => !isStrippedControl x) = sanitizeList l :=
    List.filter_eq_self.mpr (fun c hc => (hchars c hc).2.1)
  have hadj : noAdjWs (sanitizeList l) = true :=
    noAdjWs_jsTrim (collapseWsAux_noAdj_head _ false).1
  have hcol : collapseWsAux false (sanitizeList l) = sanitizeList l :=
    (collapseWsAux_eq_self _ (fun c hc => (hchars c hc).2.2) hadj).1
  have htrim : jsTrim (sanitizeList l) = sanitizeList l :=
    jsTrim_eq_self (headNotWs_jsTrim _) (lastNotWs_jsTrim _)
  show jsTrim (collapseWsAux false
      (((sanitizeList l).filter (fun x => x != Char.ofNat 0)).filter
        (fun x => !isStrippedControl x))) = sanitizeList l
  rw [hf1, hf2, hcol, htrim]

/-- Claim C8, counterexample: with sanitization disabled in the configuration,
a valid non-malicious input with repeated interior and surrounding whitespace
is returned as `sanitizedInput` unchanged — and it is not a fixed point of the
sanitization function. -/
theorem validateInput_unsanitized_not_fixed :
    (SecurityMiddleware.validateInput ⟨none, none, false⟩ " a  b ").isValid = true ∧
    (SecurityMiddleware.validateInput ⟨none, none, false⟩ " a  b ").sanitizedInput =
      some " a  b " ∧
    SecurityMiddleware.sanitizeInput " a  b " ≠ " a  b " := by
  decide

/-- Claim C8 (amended: the fixed-point consequence requires
`config.sanitizeInput` enabled): sanitization is idempotent,
`sanitize (sanitize x) = sanitize x` for every string, and whenever
sanitization is enabled, the `sanitizedInput` returned by a valid validation
is a fixed point of sanitize. -/
theorem sanitizeInput_idempotent :
    (∀ s : String,
      SecurityMiddleware.sanitizeInput (SecurityMiddleware.sanitizeInput s) =
        SecurityMiddleware.sanitizeInput s) ∧
    (∀ (cfg : SecurityConfig) (input out : String), cfg.sanitizeInput = true →
      (SecurityMiddleware.validateInput cfg input).sanitizedInput = some out →
      SecurityMiddleware.sanitizeInput out = out) := by
  have hidem : ∀ s : String,
      SecurityMiddleware.sanitizeInput (SecurityMiddleware.sanitizeInput s) =
        SecurityMiddleware.sanitizeInput s := by
    intro s
    show String.mk (sanitizeList (String.mk (sanitizeList s.data)).data) = _
    rw [show (String.mk (sanitizeList s.data)).data = sanitizeList s.data from rfl,
      sanitizeList_idem]
    rfl
  refine ⟨hidem, ?_⟩
  intro cfg input out hsan hout
  by_cases hemp : input = ""
  · simp [SecurityMiddleware.validateInput, hemp] at hout
  · by_cases herr : (lengthStepErrors cfg input ++ maliciousStepErrors cfg input ++
        domainStepErrors cfg input).isEmpty = true
    · simp [SecurityMiddleware.validateInput, hemp, herr] at hout
      rw [← hout.2]
      simp only [effectiveSanitized, hsan, if_pos, if_true]
      exact hidem input
    · simp [SecurityMiddleware.validateInput, hemp] at hout
      obtain ⟨⟨h1, h2, h3⟩, _⟩ := hout
      exact absurd (by simp [h1, h2, h3]) herr

/-- Witness for C8: idempotence at a concrete string, and a concrete valid
run with sanitization enabled whose `sanitizedInput` is a fixed point. -/
theorem sanitizeInput_idempotent_witness :
    SecurityMiddleware.sanitizeInput (SecurityMiddleware.sanitizeInput "  hi   there ") =
      SecurityMiddleware.sanitizeInput "  hi   there " ∧
    (⟨none, none, true⟩ : SecurityConfig).sanitizeInput = true ∧
    (SecurityMiddleware.validateInput ⟨none, none, true⟩ " x  y ").sanitizedInput =
      some "x y" ∧
    SecurityMiddleware.sanitizeInput "x y" = "x y" := by
  refine ⟨sanitizeInput_idempotent.1 "  hi   there ", rfl, by decide, ?_⟩
  exact sanitizeInput_idempotent.2 ⟨none, none, true⟩ " x  y " "x y" rfl (by decide)

/-! ## Parameter resolver (`DefaultToolCreationStrategy`,
tool-creation.strategy.ts lines 23-228)

JavaScript values flowing through the resolver are modelled by a JSON-like
universe `Json` (numbers as exact rationals); `JSON.parse` is an external
library routine and is passed in as a function `String → Option Json`
(`none` models a parse exception). -/

/-- JSON-like universe of the JavaScript values handled by the resolver. -/
inductive Json where
  | null : Json
  | bool (b : Bool) : Json
  | num (q : Rat) : Json
  | str (s : String) : Json
  | arr (elems : List Json) : Json
  | obj (fields : List (String × Json)) : Json
deriving Inhabited

/-- `jsonInput[name] !== undefined`: object field lookup, plus the `length`
property and numeric indexing that arrays and strings also expose;
`none` models `undefined`. -/
def Json.getField : Json → String → Option Json
  | .obj fields, name => (fields.find? (fun p => p.1 == name)).map Prod.snd
  | .arr elems, name =>
    if name == "length" then some (.num elems.length)
    else
      match name.toNat? with
      | some i => elems.get? i
      | none => none
  | .str s, name =>
    if name == "length" then some (.num s.length)
    else
      match name.toNat? with
      | some i => (s.data.get? i).map (fun c => .str (String.mk [c]))
      | none => none
  | _, _ => none

/-- JavaScript truthiness of the modelled values. -/
def Json.truthy : Json → Bool
  | .null => false
  | .bool b => b
  | .num q => q != 0
  | .str s => s != ""
  | .arr _ => true
  | .obj _ => true

/-- `Object.values` on the modelled values. -/
def Json.objValues : Json → List Json
  | .obj fields => fields.map Prod.snd
  | .arr elems => elems
  | .str s => s.data.map (fun c => .str (String.mk [c]))
  | _ => []

/-- `typeof v === 'string'`. -/
def Json.isStr : Json → Bool
  | .str _ => true
  | _ => false

/-- The `ToolParameter` metadata consumed by resolution. -/
structure ParamConfig where
  required : Bool
deriving Repr, DecidableEq

/-- A single-quote character, used in the resolver's error messages. -/
def sq : String := String.singleton (Char.ofNat 39)

/-- The error thrown in the JSON branch:
`Required parameter '<name>' not found in input`. -/
def requiredErrorJson (name : String) : String :=
  "Required parameter " ++ sq ++ name ++ sq ++ " not found in input"

/-- The error thrown in the string branch:
`Required parameter '<name>' not found in input: "<input>"`. -/
def requiredErrorString (name : String) (input : String) : String :=
  "Required parameter " ++ sq ++ name ++ sq ++ " not found in input: \"" ++ input ++ "\""

/-- Lazy capture tail of the city pattern: consume `[A-Za-z\s]` characters and
stop at the first `?`, `,`, `.` or end of input, requiring at least one
consumed character (`acc` holds the consumed characters in reverse). -/
def cityScan : List Char → List Char → Option (List Char)
  | acc, [] => if acc.isEmpty then none else some acc.reverse
  | acc, c :: cs =>
    if (c == '?' || c == ',' || c == '.') && !acc.isEmpty then some acc.reverse
    else if c.isAlpha || isJsWhitespace c then cityScan (c :: acc) cs
    else none

/-- After a matched keyword, `\s+` greedily takes `k` whitespace characters
and backtracks from the maximal run down to one, as the regex engine does. -/
def cityTryWs : Nat → List Char → Option (List Char)
  | 0, _ => none
  | k + 1, after =>
    match cityScan [] (after.drop (k + 1)) with
    | some cap => some cap
    | none => cityTryWs k after

/-- Try the city pattern `(?:in|for|at)\s+([A-Za-z\s]+?)(?:\?|$|,|\.)` at the
current position for one keyword (matched case-insensitively). -/
def cityTryKeyword (kw : List Char) (l : List Char) : Option (List Char) :=
  if isPrefixOfCI kw l then
    let after := l.drop kw.length
    cityTryWs (after.takeWhile isJsWhitespace).length after
  else none

/-- Leftmost match of the city pattern, keywords tried in alternation order. -/
def citySearch : List Char → Option (List Char)
  | [] => none
  | c :: cs =>
    match cityTryKeyword ("in".data) (c :: cs) with
    | some r => some r
    | none =>
      match cityTryKeyword ("for".data) (c :: cs) with
      | some r => some r
      | none =>
        match cityTryKeyword ("at".data) (c :: cs) with
        | some r => some r
        | none => citySearch cs

/-- First match of `/"([^"]+)"/`: the content of the first completed pair of
double quotes with a non-empty body. -/
def quotedCapture : List Char → Option (List Char)
  | [] => none
  | c :: cs =>
    if c == '"' then
      let body := cs.takeWhile (fun x => x != '"')
      let rest := cs.dropWhile (fun x => x != '"')
      if !body.isEmpty && !rest.isEmpty then some body
      else quotedCapture cs
    else quotedCapture cs

/-- The operation vocabulary, in the regex's alternation order. -/
def operationWords : List String :=
  ["add", "subtract", "multiply", "divide", "power", "sqrt"]

/-- Leftmost case-insensitive match of
`/(add|subtract|multiply|divide|power|sqrt)/i`, already lowercased. -/
def operationSearch : List Char → Option String
  | [] => none
  | c :: cs =>
    match operationWords.find? (fun w => isPrefixOfCI w.data (c :: cs)) with
    | some w => some w
    | none => operationSearch cs

/-! Matching discipline of `/(\d+(?:\.\d+)?)/g` as a structural scanner:
`numberMatchesAux` searches for the next digit; `numberInt` accumulates the
integer part (reversed in `acc`) and takes the optional fraction only when a
`.` is immediately followed by a digit; `numberFrac` accumulates the
fractional digits.  After a match the scan resumes at the following
character, as the global regex does. -/
mutual

def numberMatchesAux : List Char → List (List Char)
  | [] => []
  | c :: cs =>
    if c.isDigit then numberInt [c] cs
    else numberMatchesAux cs
termination_by l => l.length

def numberInt (acc : List Char) : List Char → List (List Char)
  | [] => [acc.reverse]
  | c :: cs =>
    if c.isDigit then numberInt (c :: acc) cs
    else if c == '.' then
      match cs with
      | [] => [acc.reverse]
      | d :: ds =>
        if d.isDigit then numberFrac (d :: '.' :: acc) ds
        else acc.reverse :: numberMatchesAux (d :: ds)
    else acc.reverse :: numberMatchesAux cs
termination_by l => l.length

def numberFrac (acc : List Char) : List Char → List (List Char)
  | [] => [acc.reverse]
  | c :: cs =>
    if c.isDigit then numberFrac (c :: acc) cs
    else acc.reverse :: numberMatchesAux cs
termination_by l => l.length

end

/-- All matches of `/(\d+(?:\.\d+)?)/g`, in order of appearance. -/
def numberMatches (l : List Char) : List (List Char) :=
  numberMatchesAux l

/-- Digits to a natural number. -/
def natOfDigits (l : List Char) : Nat :=
  l.foldl (fun n c => n * 10 + (c.toNat - 48)) 0

/-- `parseFloat` on a matched numeral `digits(.digits)?`, as an exact
rational (the matched numerals are short enough to be float-exact in spirit;
no claim depends on the numeric value). -/
def ratOfNumeral (l : List Char) : Rat :=
  let intPart := l.takeWhile Char.isDigit
  let rest := l.dropWhile Char.isDigit
  let fracPart :=
    match rest with
    | '.' :: fs => fs.takeWhile Char.isDigit
    | _ => []
  (natOfDigits intPart : Rat) + (natOfDigits fracPart : Rat) / ((10 : Rat) ^ fracPart.length)

/-- Characters of the email local part `[a-zA-Z0-9._%+-]`. -/
def isEmailLocalChar (c : Char) : Bool :=
  c.isAlphanum || c == '.' || c == '_' || c == '%' || c == '+' || c == '-'

/-- Characters of the email domain run `[a-zA-Z0-9.-]`. -/
def isEmailDomainChar (c : Char) : Bool :=
  c.isAlphanum || c == '.' || c == '-'

/-- Within the maximal domain run, the regex backtracks to the rightmost dot
followed by at least two letters, keeping at least one character before it. -/
def emailDomainMatch (d : List Char) : Option (List Char) :=
  match ((List.range d.length).filter (fun i =>
      1 ≤ i && d.get? i == some '.' &&
      2 ≤ ((d.drop (i + 1)).takeWhile Char.isAlpha).length)).getLast? with
  | some i => some (d.take i ++ '.' :: (d.drop (i + 1)).takeWhile Char.isAlpha)
  | none => none

/-- Try the email pattern at the current position: a greedy local part, `@`,
and a domain with a final alphabetic label of length at least two. -/
def emailTryAt (l : List Char) : Option (List Char) :=
  let localPart := l.takeWhile isEmailLocalChar
  if localPart.isEmpty then none
  else
    match l.drop localPart.length with
    | '@' :: d0 =>
      let drun := d0.takeWhile isEmailDomainChar
      match emailDomainMatch drun with
      | some dom => some (localPart ++ '@' :: dom)
      | none => none
    | _ => none

/-- Leftmost match of the email pattern
`([a-zA-Z0-9._%+-]+@[a-zA-Z0-9.-]+\.[a-zA-Z]{2,})`. -/
def emailSearch : List Char → Option (List Char)
  | [] => none
  | c :: cs =>
    match emailTryAt (c :: cs) with
    | some r => some r
    | none => emailSearch cs

/-- `DefaultToolCreationStrategy.extractParameterFromString`: the fixed
name-keyed heuristic table; parameter names outside the table fall through
the switch and yield `null`. -/
def DefaultToolCreationStrategy.extractParameterFromString
    (input : List Char) (paramName : String) : Option Json :=
  if paramName = "city" then
    match citySearch input with
    | some cap => some (.str (String.mk (jsTrim cap)))
    | none =>
      match quotedCapture input with
      | some cap => some (.str (String.mk (jsTrim cap)))
      | none => none
  else if paramName = "operation" then
    match operationSearch input with
    | some w => some (.str w)
    | none => none
  else if paramName = "a" then
    match numberMatches input with
    | [] => none
    | n :: _ => some (.num (ratOfNumeral n))
  else if paramName = "b" then
    match numberMatches input with
    | _ :: n :: _ => some (.num (ratOfNumeral n))
    | _ => none
  else if paramName = "text" then
    match quotedCapture input with
    | some cap => some (.str (String.mk (jsTrim cap)))
    | none => none
  else if paramName = "email" then
    match emailSearch input with
    | some m => some (.str (String.mk m))
    | none => none
  else none

/-- The loop over `Object.entries(tool.parameters)` in the JSON branch of
`parseInput`: a field present in the parsed object is taken directly; a
missing required field falls back to string extraction and throws when that
fails too; the flag records `hasExtractedParams`. -/
def extractLoopJson (jsonInput : Json) (input : List Char) :
    List (String × ParamConfig) → Except String (List (String × Json) × Bool)
  | [] => .ok ([], false)
  | (name, pcfg) :: rest =>
    match jsonInput.getField name with
    | some v =>
      (extractLoopJson jsonInput input rest).map (fun out => ((name, v) :: out.1, true))
    | none =>
      if pcfg.required then
        match DefaultToolCreationStrategy.extractParameterFromString input name with
        | some v =>
          (extractLoopJson jsonInput input rest).map (fun out => ((name, v) :: out.1, true))
        | none => .error (requiredErrorJson name)
      else extractLoopJson jsonInput input rest

/-- The loop over `Object.entries(tool.parameters)` in the string branch of
`parseInput`: every parameter goes through string extraction; a required one
that cannot be extracted throws, echoing the input. -/
def extractLoopString (input : List Char) (rawInput : String) :
    List (String × ParamConfig) → Except String (List (String × Json) × Bool)
  | [] => .ok ([], false)
  | (name, pcfg) :: rest =>
    match DefaultToolCreationStrategy.extractParameterFromString input name with
    | some v =>
      (extractLoopString input rawInput rest).map (fun out => ((name, v) :: out.1, true))
    | none =>
      if pcfg.required then .error (requiredErrorString name rawInput)
      else extractLoopString input rawInput rest

/-- The single-value fallback of `parseInput`:
`jsonInput.input || Object.values(jsonInput).find(v => typeof v === 'string') || input`,
with JavaScript truthiness deciding each `||`. -/
def parseInputFallback (jsonInput : Json) (input : String) : Json :=
  let c1 :=
    match jsonInput.getField "input" with
    | some v => if v.truthy then some v else none
    | none => none
  match c1 with
  | some v => v
  | none =>
    match jsonInput.objValues.find? Json.isStr with
    | some v => if v.truthy then v else .str input
    | none => .str input

/-- `DefaultToolCreationStrategy.parseInput`: parse the raw input as JSON and
extract declared parameters from the object (with string-extraction rescue for
required ones), fall back to a single value when nothing was extracted; when
JSON parsing throws, run string extraction directly and fall back to the raw
input.  `parseJson` stands for the external `JSON.parse`
(`none` = parse exception); errors are thrown as `Except.error`. -/
def DefaultToolCreationStrategy.parseInput (parseJson : String → Option Json)
    (input : String) (parameters : Option (List (String × ParamConfig))) :
    Except String Json :=
  match parseJson input with
  | some jsonInput =>
    match parameters with
    | some params =>
      match extractLoopJson jsonInput input.data params with
      | .error e => .error e
      | .ok (fields, hasExtracted) =>
        if hasExtracted then .ok (.obj fields)
        else .ok (parseInputFallback jsonInput input)
    | none => .ok (parseInputFallback jsonInput input)
  | none =>
    match parameters with
    | some params =>
      match extractLoopString input.data input params with
      | .error e => .error e
      | .ok (fields, hasExtracted) =>
        if hasExtracted then .ok (.obj fields)
        else .ok (.str input)
    | none => .ok (.str input)

/-- Claim C4: for a tool schema with exactly one required parameter, (a) a raw
input parsing as a structured object with a same-named field resolves to an
argument object holding exactly that field's value, and (b) a raw input that
does not parse as structured data, for a parameter name outside the fixed
extraction table, fails with an error naming the missing parameter. -/
theorem parseInput_single_required (parseJson : String → Option Json)
    (input : String) (p : String) :
    (∀ (fields : List (String × Json)) (v : Json),
      parseJson input = some (.obj fields) →
      (Json.obj fields).getField p = some v →
      DefaultToolCreationStrategy.parseInput parseJson input (some [(p, ⟨true⟩)]) =
        .ok (.obj [(p, v)])) ∧
    (parseJson input = none →
      p ∉ (["city", "operation", "a", "b", "text", "email"] : List String) →
      DefaultToolCreationStrategy.parseInput parseJson input (some [(p, ⟨true⟩)]) =
        .error (requiredErrorString p input)) := by
  constructor
  · intro fields v hparse hfield
    simp [DefaultToolCreationStrategy.parseInput, hparse, extractLoopJson, hfield,
      Except.map]
  · intro hparse hp
    simp only [List.mem_cons, List.mem_singleton, not_or] at hp
    obtain ⟨h1, h2, h3, h4, h5, h6⟩ := hp
    have hext : DefaultToolCreationStrategy.extractParameterFromString input.data p =
        none := by
      simp [DefaultToolCreationStrategy.extractParameterFromString,
        h1, h2, h3, h4, h5, h6]
    simp [DefaultToolCreationStrategy.parseInput, hparse, extractLoopString, hext]

/-- Witness for C4: a structured payload with the field `userQuery`, and free
text against the same (untabled) parameter name. -/
theorem parseInput_single_required_witness :
    ((fun _ => some (Json.obj [("userQuery", Json.str "ask")])) :
        String → Option Json) "give" = some (.obj [("userQuery", Json.str "ask")]) ∧
    (Json.obj [("userQuery", Json.str "ask")]).getField "userQuery" =
      some (Json.str "ask") ∧
    DefaultToolCreationStrategy.parseInput
      (fun _ => some (Json.obj [("userQuery", Json.str "ask")])) "give"
      (some [("userQuery", ⟨true⟩)]) = .ok (.obj [("userQuery", Json.str "ask")]) ∧
    ((fun _ => none : String → Option Json) "plain text" = none ∧
      "userQuery" ∉ (["city", "operation", "a", "b", "text", "email"] : List String) ∧
      DefaultToolCreationStrategy.parseInput (fun _ => none) "plain text"
        (some [("userQuery", ⟨true⟩)]) =
          .error (requiredErrorString "userQuery" "plain text")) := by
  refine ⟨rfl, rfl, ?_, rfl, by decide, ?_⟩
  · exact (parseInput_single_required _ "give" "userQuery").1
      [("userQuery", Json.str "ask")] (Json.str "ask") rfl rfl
  · exact (parseInput_single_required _ "plain text" "userQuery").2 rfl (by decide)

/-! ## Tool adapters (`createToolsFromMetadata`) and fallback dispatcher
(`AgentService.executeToolsDirectly`) -/

/-- The fields of a registered tool (with its bound instance) consumed by the
adapter; `method` models `tool.instance[tool.methodName]`, which may throw. -/
structure ToolMeta where
  name : String
  description : String
  parameters : Option (List (String × ParamConfig))
  method : Json → Except String Json

/-- JavaScript `String(result)` on the modelled values (array elements join
with commas; objects print as `[object Object]`; the exact numeric rendering
is irrelevant to every claim). -/
def jsStringOf : Json → String
  | .null => "null"
  | .bool b => cond b "true" "false"
  | .num q => toString q
  | .str s => s
  | .obj _ => "[object Object]"
  | .arr elems => String.intercalate "," (elems.attach.map (fun e => jsStringOf e.1))
decreasing_by
  have h := List.sizeOf_lt_of_mem e.2
  simp only [Json.arr.sizeOf_spec]
  omega

/-- The `func` closure that `createToolsFromMetadata` builds for one tool:
resolve the input, call the underlying method, stringify the result; any
thrown error is caught, logged and surfaced as an `"Error: <message>"`
string — never rethrown. -/
def toolFunc (parseJson : String → Option Json) (tool : ToolMeta)
    (input : String) : String :=
  match (DefaultToolCreationStrategy.parseInput parseJson input tool.parameters).bind
      (fun parsed => (tool.method parsed).map jsStringOf) with
  | .ok s => s
  | .error e => "Error: " ++ e

/-- A `DynamicTool` as consumed by the orchestration layer and the fallback
dispatcher: name, description, and a callable that may in general throw
(`Except`); the callables built by `createToolsFromMetadata` never do. -/
structure DTool where
  name : String
  description : String
  func : String → Except String String

/-- `DefaultToolCreationStrategy.createToolsFromMetadata`: one `DynamicTool`
per registered tool, in registration order. -/
def DefaultToolCreationStrategy.createToolsFromMetadata
    (parseJson : String → Option Json) (tools : List ToolMeta) : List DTool :=
  tools.map (fun t =>
    ⟨t.name, t.description, fun input => .ok (toolFunc parseJson t input)⟩)

/-- Claim C6: every adapter callable always returns a string and never throws;
on success the stringified tool result, and on any failure — parameter
resolution included — the string `"Error: <message>"`. -/
theorem createTools_adapter_contract (parseJson : String → Option Json)
    (tools : List ToolMeta) (t : ToolMeta) (input : String) :
    (∀ d ∈ DefaultToolCreationStrategy.createToolsFromMetadata parseJson tools,
      ∀ inp, ∃ s, d.func inp = .ok s) ∧
    (∀ e, DefaultToolCreationStrategy.parseInput parseJson input t.parameters =
        .error e → toolFunc parseJson t input = "Error: " ++ e) ∧
    (∀ arg e, DefaultToolCreationStrategy.parseInput parseJson input t.parameters =
        .ok arg → t.method arg = .error e →
      toolFunc parseJson t input = "Error: " ++ e) ∧
    (∀ arg v, DefaultToolCreationStrategy.parseInput parseJson input t.parameters =
        .ok arg → t.method arg = .ok v →
      toolFunc parseJson t input = jsStringOf v) := by
  refine ⟨?_, ?_, ?_, ?_⟩
  · intro d hd inp
    simp only [DefaultToolCreationStrategy.createToolsFromMetadata, List.mem_map] at hd
    obtain ⟨t0, _, rfl⟩ := hd
    exact ⟨toolFunc parseJson t0 inp, rfl⟩
  · intro e he
    simp [toolFunc, he, Except.bind]
  · intro arg e hok hme
    simp [toolFunc, hok, hme, Except.bind, Except.map]
  · intro arg v hok hmv
    simp [toolFunc, hok, hmv, Except.bind, Except.map]

/-- Witness for C6: a one-tool list whose required parameter cannot be
resolved yields an `"Error: Required parameter ..."` string, and a successful
call yields the stringified result. -/
theorem createTools_adapter_contract_witness :
    (∃ s, ((DefaultToolCreationStrategy.createToolsFromMetadata (fun _ => none)
        [⟨"lookup", "d", some [("userQuery", ⟨true⟩)], fun _ => .ok (.str "ok")⟩]).headD
        ⟨"", "", fun _ => .error ""⟩).func "hi" = .ok s) ∧
    toolFunc (fun _ => none)
        ⟨"lookup", "d", some [("userQuery", ⟨true⟩)], fun _ => .ok (.str "ok")⟩ "hi" =
      "Error: " ++ requiredErrorString "userQuery" "hi" ∧
    toolFunc (fun _ => none) ⟨"echo", "d", none, fun v => .ok v⟩ "hi" =
      jsStringOf (.str "hi") := by
  refine ⟨?_, ?_, ?_⟩
  · exact (createTools_adapter_contract (fun _ => none)
      [⟨"lookup", "d", some [("userQuery", ⟨true⟩)], fun _ => .ok (.str "ok")⟩]
      ⟨"", "", none, fun _ => .error ""⟩ "").1 _ (by simp
        [DefaultToolCreationStrategy.createToolsFromMetadata]) "hi"
  · have hpe : DefaultToolCreationStrategy.parseInput (fun _ => none) "hi"
        (some [("userQuery", (⟨true⟩ : ParamConfig))]) =
        .error (requiredErrorString "userQuery" "hi") := rfl
    exact (createTools_adapter_contract (fun _ => none) []
      ⟨"lookup", "d", some [("userQuery", ⟨true⟩)], fun _ => .ok (.str "ok")⟩ "hi").2.1
      (requiredErrorString "userQuery" "hi") hpe
  · exact (createTools_adapter_contract (fun _ => none) []
      ⟨"echo", "d", none, fun v => .ok v⟩ "hi").2.2.2 (.str "hi") (.str "hi") rfl rfl

/-- JavaScript `String.prototype.split` with a single-character separator
(adjacent separators produce empty tokens, as in the source's `split('-')`). -/
def splitOnChar (sep : Char) : List Char → List (List Char)
  | [] => [[]]
  | c :: cs =>
    if c == sep then [] :: splitOnChar sep cs
    else
      match splitOnChar sep cs with
      | [] => [[c]]
      | w :: ws => (c :: w) :: ws

/-- The relevance test of `executeToolsDirectly`: the lowercased input
contains the lowercased tool name, or any hyphen-delimited token of the name,
or any description word longer than 3 characters. -/
def isRelevantTool (tool : DTool) (input : String) : Bool :=
  let toolName := tool.name.data.map Char.toLower
  let toolDescription := tool.description.data.map Char.toLower
  let inputLower := input.data.map Char.toLower
  listIsInfix toolName inputLower ||
  (splitOnChar '-' toolName).any (fun word => listIsInfix word inputLower) ||
  (splitOnChar ' ' toolDescription).any
    (fun word => decide (word.length > 3) && listIsInfix word inputLower)

/-- The fixed apology returned when no tool matches or all matching tools
error. -/
def fallbackApology : String :=
  "I" ++ sq ++ "m sorry, I couldn" ++ sq ++
    "t process your request properly. Please try rephrasing your question."

/-- `AgentService.executeToolsDirectly`: scan the tools in registration order;
invoke the first relevant one with the raw input and return the templated
result; when the invocation throws, log and continue with the remaining
tools; when no tool is left, apologise. -/
def AgentService.executeToolsDirectly : List DTool → String → String
  | [], _ => fallbackApology
  | tool :: rest, input =>
    if isRelevantTool tool input then
      match tool.func input with
      | .ok result => "Based on the " ++ tool.name ++ " information: " ++ result
      | .error _ => AgentService.executeToolsDirectly rest input
    else AgentService.executeToolsDirectly rest input

/-- Claim C5: the dispatcher returns the apology when no tool is relevant;
on the first relevant tool it invokes it with the raw input and returns
`"Based on the <tool-name> information: <tool output>"`; when that invocation
throws it continues with the remaining tools. -/
theorem executeToolsDirectly_spec (input : String) :
    (∀ tools : List DTool, (∀ t ∈ tools, isRelevantTool t input = false) →
      AgentService.executeToolsDirectly tools input = fallbackApology) ∧
    (∀ (pre : List DTool) (t : DTool) (post : List DTool) (r : String),
      (∀ u ∈ pre, isRelevantTool u input = false) → isRelevantTool t input = true →
      t.func input = .ok r →
      AgentService.executeToolsDirectly (pre ++ t :: post) input =
        "Based on the " ++ t.name ++ " information: " ++ r) ∧
    (∀ (pre : List DTool) (t : DTool) (post : List DTool) (e : String),
      (∀ u ∈ pre, isRelevantTool u input = false) → isRelevantTool t input = true →
      t.func input = .error e →
      AgentService.executeToolsDirectly (pre ++ t :: post) input =
        AgentService.executeToolsDirectly post input) := by
  refine ⟨?_, ?_, ?_⟩
  · intro tools hnone
    induction tools with
    | nil => rfl
    | cons t rest ih =>
      have ht : isRelevantTool t input = false := hnone t (by simp)
      have hrest : ∀ u ∈ rest, isRelevantTool u input = false :=
        fun u hu => hnone u (by simp [hu])
      simp [AgentService.executeToolsDirectly, ht, ih hrest]
  · intro pre t post r hpre ht hf
    induction pre with
    | nil =>
      simp [AgentService.executeToolsDirectly, ht, hf]
    | cons u us ih =>
      have hu : isRelevantTool u input = false := hpre u (by simp)
      have hus : ∀ w ∈ us, isRelevantTool w input = false :=
        fun w hw => hpre w (by simp [hw])
      simp [AgentService.executeToolsDirectly, hu, ih hus]
  · intro pre t post e hpre ht hf
    induction pre with
    | nil =>
      simp [AgentService.executeToolsDirectly, ht, hf]
    | cons u us ih =>
      have hu : isRelevantTool u input = false := hpre u (by simp)
      have hus : ∀ w ∈ us, isRelevantTool w input = false :=
        fun w hw => hpre w (by simp [hw])
      simp [AgentService.executeToolsDirectly, hu, ih hus]

/-- Witness for C5 on concrete tools: an erroring relevant tool is skipped,
the next relevant tool answers with the template, and an unrelated input gets
the apology. -/
theorem executeToolsDirectly_spec_witness :
    (∀ u ∈ ([] : List DTool), isRelevantTool u "any news about weather?" = false) ∧
    isRelevantTool ⟨"weather-tool", "gets forecast data", fun _ => .error "boom"⟩
      "any news about weather?" = true ∧
    isRelevantTool ⟨"news", "latest headlines today", fun i => .ok ("N:" ++ i)⟩
      "any news about weather?" = true ∧
    AgentService.executeToolsDirectly
      [⟨"weather-tool", "gets forecast data", fun _ => .error "boom"⟩,
        ⟨"news", "latest headlines today", fun i => .ok ("N:" ++ i)⟩]
      "any news about weather?" =
      "Based on the news information: N:any news about weather?" ∧
    AgentService.executeToolsDirectly
      [⟨"news", "latest headlines today", fun i => .ok ("N:" ++ i)⟩] "xyz" =
      fallbackApology := by
  have h1 : isRelevantTool
      ⟨"weather-tool", "gets forecast data", fun _ => .error "boom"⟩
      "any news about weather?" = true := by decide
  have h2 : isRelevantTool ⟨"news", "latest headlines today", fun i => .ok ("N:" ++ i)⟩
      "any news about weather?" = true := by decide
  refine ⟨by simp, h1, h2, ?_, ?_⟩
  · have hskip := (executeToolsDirectly_spec "any news about weather?").2.2 []
      ⟨"weather-tool", "gets forecast data", fun _ => .error "boom"⟩
      [⟨"news", "latest headlines today", fun i => .ok ("N:" ++ i)⟩] "boom"
      (by simp) h1 rfl
    have hhit := (executeToolsDirectly_spec "any news about weather?").2.1 []
      ⟨"news", "latest headlines today", fun i => .ok ("N:" ++ i)⟩ []
      "N:any news about weather?" (by simp) h2 rfl
    rw [show ([⟨"weather-tool", "gets forecast data", fun _ => .error "boom"⟩,
        ⟨"news", "latest headlines today", fun i => .ok ("N:" ++ i)⟩] : List DTool) =
      [] ++ ⟨"weather-tool", "gets forecast data", fun _ => .error "boom"⟩ ::
        [⟨"news", "latest headlines today", fun i => .ok ("N:" ++ i)⟩] from rfl, hskip]
    simpa using hhit
  · exact (executeToolsDirectly_spec "xyz").1 _ (by
      intro t htm
      simp only [List.mem_singleton] at htm
      subst htm
      decide)

/-! ## Middleware pipeline (`BaseAgentProvider.execute`,
base-agent-provider.abstract.ts lines 33-132) -/

/-- `BaseAgentProvider.execute`: optional `beforeModelCall` / `afterModelCall`
hooks around the core execution.  A hook failure is isolated — the pipeline
continues with the original context, respectively returns the original core
response — while a core failure propagates (the outer catch logs and
rethrows).  As in the source, the `after` hook receives the original
context, not the processed one.  A missing context throws up front. -/
def BaseAgentProvider.execute {α β : Type}
    (beforeModelCall : Option (α → Except String α))
    (core : α → Except String β)
    (afterModelCall : Option (α → β → Except String β))
    (context : Option α) : Except String β :=
  match context with
  | none => .error "Context is required for agent execution"
  | some ctx =>
    let processedContext :=
      match beforeModelCall with
      | none => ctx
      | some hook =>
        match hook ctx with
        | .ok c => c
        | .error _ => ctx
    match core processedContext with
    | .error e => .error e
    | .ok result =>
      let finalResult :=
        match afterModelCall with
        | none => result
        | some hook =>
          match hook ctx result with
          | .ok r => r
          | .error _ => result
      .ok finalResult

/-- Claim C3: a throwing `before` hook leaves the pipeline running on the
original unmodified context with no hook error surfaced; a throwing `after`
hook makes the pipeline return the original core response; a core failure is
not isolated and propagates. -/
theorem middleware_failure_isolation {α β : Type} (ctx : α)
    (f : α → Except String α) (core : α → Except String β)
    (g : α → β → Except String β) :
    (∀ e, f ctx = .error e →
      BaseAgentProvider.execute (some f) core (some g) (some ctx) =
        BaseAgentProvider.execute none core (some g) (some ctx)) ∧
    (∀ r e2, core ctx = .ok r → g ctx r = .error e2 →
      BaseAgentProvider.execute none core (some g) (some ctx) = .ok r) ∧
    (∀ e3, core ctx = .error e3 →
      BaseAgentProvider.execute none core (some g) (some ctx) = .error e3) := by
  refine ⟨?_, ?_, ?_⟩
  · intro e he
    simp [BaseAgentProvider.execute, he]
  · intro r e2 hcore hg
    simp [BaseAgentProvider.execute, hcore, hg]
  · intro e3 hcore
    simp [BaseAgentProvider.execute, hcore]

/-- Witness for C3 at concrete hooks over `Nat` contexts and responses. -/
theorem middleware_failure_isolation_witness :
    ((fun _ : Nat => (.error "bad hook" : Except String Nat)) 5 = .error "bad hook" ∧
      BaseAgentProvider.execute (some (fun _ : Nat => (.error "bad hook" : Except String Nat)))
          (fun n => .ok (n + 1)) (some (fun _ r => .ok (r * 2))) (some 5) =
        BaseAgentProvider.execute none (fun n => .ok (n + 1))
          (some (fun _ r => .ok (r * 2))) (some 5)) ∧
    ((fun n : Nat => (.ok (n + 1) : Except String Nat)) 5 = .ok 6 ∧
      (fun (_ : Nat) (_ : Nat) => (.error "bad after" : Except String Nat)) 5 6 =
        .error "bad after" ∧
      BaseAgentProvider.execute none (fun n : Nat => (.ok (n + 1) : Except String Nat))
          (some (fun _ _ => .error "bad after")) (some 5) = .ok 6) ∧
    ((fun _ : Nat => (.error "core down" : Except String Nat)) 5 = .error "core down" ∧
      BaseAgentProvider.execute none (fun _ : Nat => (.error "core down" : Except String Nat))
          (some (fun _ r => .ok r)) (some 5) = .error "core down") := by
  refine ⟨⟨rfl, ?_⟩, ⟨rfl, rfl, ?_⟩, ⟨rfl, ?_⟩⟩
  · exact (middleware_failure_isolation 5 _ (fun n => .ok (n + 1))
      (fun _ r => .ok (r * 2))).1 "bad hook" rfl
  · exact (middleware_failure_isolation 5 (fun n => .ok n) (fun n => .ok (n + 1))
      (fun _ _ => .error "bad after")).2.1 6 "bad after" rfl rfl
  · exact (middleware_failure_isolation 5 (fun n => .ok n)
      (fun _ : Nat => (.error "core down" : Except String Nat))
      (fun _ r => .ok r)).2.2 "core down" rfl

/-! ## Execution orchestrator (`AgentService`, agent.service.ts) -/

/-- The metadata object of the three envelopes built by
`executeAgentInternal` (absent fields are `none`). -/
structure RespMetadata where
  agentName : String
  tools : List String
  availableTools : List String
  fallbackUsed : Option Bool
  error : Option String
deriving Repr, DecidableEq

/-- `AgentResponse`: `{ output, metadata }`. -/
structure AgentResponse where
  output : String
  metadata : RespMetadata
deriving Repr, DecidableEq

/-- Result of `agentExecutor.invoke`: the `output` field, `none` when
`undefined`. -/
structure InvokeResult where
  output : Option String
deriving Repr, DecidableEq

/-- `result.output && result.output !== 'Agent stopped due to max iterations.'`:
the output is usable when present, non-empty, and not the sentinel. -/
def usableOutput : Option String → Bool
  | none => false
  | some s => s != "" && s != "Agent stopped due to max iterations."

/-- The degraded envelope of the catch block at line 283. -/
def errorEnvelope (agentName : String) (toolNames availableTools : List String)
    (e : String) : AgentResponse :=
  ⟨"I encountered an error while processing your request: " ++ e,
    ⟨agentName, toolNames, availableTools, none, some e⟩⟩

/-- The `try` block of `AgentService.executeAgentInternal` (lines 227-304).
The externally supplied orchestration (`invoke`, via `agentExecutor.invoke`)
and the fallback dispatch (via `FallbackToolExecutionCommand`) are passed as
their outcomes; the `catch` converts any throw into the degraded envelope
carrying the message in `metadata.error`, and the function — by its very
return type — never rethrows. -/
def AgentService.executeAgentInternal (agentName : String)
    (toolNames availableTools : List String)
    (invoke : Except String InvokeResult)
    (fallback : Except String String) : AgentResponse :=
  let attempt : Except String AgentResponse :=
    match invoke with
    | .error e => .error e
    | .ok result =>
      if usableOutput result.output then
        .ok ⟨result.output.getD "",
          ⟨agentName, toolNames, availableTools, none, none⟩⟩
      else
        match fallback with
        | .error e => .error e
        | .ok fallbackOutput =>
          .ok ⟨fallbackOutput,
            ⟨agentName, toolNames, availableTools, some true, none⟩⟩
  match attempt with
  | .ok resp => resp
  | .error e => errorEnvelope agentName toolNames availableTools e

/-- Claim C2: any error thrown during model invocation or fallback dispatch is
caught inside `executeAgentInternal` and converted into an envelope whose
output is the user-facing apology and whose metadata carries the message;
nothing is rethrown (the embedding returns a plain `AgentResponse`).  Tool
adapter construction (step 3) is total — `createToolsFromMetadata` is a plain
`List.map` — so resolution errors can only surface inside the invocation,
which this theorem covers. -/
theorem executeAgentInternal_catches (agentName : String)
    (toolNames availableTools : List String)
    (invoke : Except String InvokeResult) (fallback : Except String String) :
    (∀ e, invoke = .error e →
      AgentService.executeAgentInternal agentName toolNames availableTools
          invoke fallback =
        errorEnvelope agentName toolNames availableTools e) ∧
    (∀ r e, invoke = .ok r → usableOutput r.output = false → fallback = .error e →
      AgentService.executeAgentInternal agentName toolNames availableTools
          invoke fallback =
        errorEnvelope agentName toolNames availableTools e) ∧
    (∀ e, AgentService.executeAgentInternal agentName toolNames availableTools
        invoke fallback =
          errorEnvelope agentName toolNames availableTools e →
      (AgentService.executeAgentInternal agentName toolNames availableTools
        invoke fallback).metadata.error = some e ∧
      (AgentService.executeAgentInternal agentName toolNames availableTools
        invoke fallback).output =
        "I encountered an error while processing your request: " ++ e) := by
  refine ⟨?_, ?_, ?_⟩
  · intro e he
    simp [AgentService.executeAgentInternal, he]
  · intro r e hr hu hf
    simp [AgentService.executeAgentInternal, hr, hu, hf]
  · intro e he
    rw [he]
    exact ⟨rfl, rfl⟩

/-- Witness for C2: a throwing invocation and a throwing fallback both yield
the degraded envelope at concrete inputs. -/
theorem executeAgentInternal_catches_witness :
    (Except.error "model down" : Except String InvokeResult) = .error "model down" ∧
    AgentService.executeAgentInternal "alpha" ["t1"] ["t1"]
        (.error "model down") (.ok "unused") =
      errorEnvelope "alpha" ["t1"] ["t1"] "model down" ∧
    ((Except.ok ⟨some "Agent stopped due to max iterations."⟩ :
        Except String InvokeResult) = .ok ⟨some "Agent stopped due to max iterations."⟩ ∧
      usableOutput (some "Agent stopped due to max iterations.") = false ∧
      AgentService.executeAgentInternal "alpha" ["t1"] ["t1"]
          (.ok ⟨some "Agent stopped due to max iterations."⟩) (.error "fallback boom") =
        errorEnvelope "alpha" ["t1"] ["t1"] "fallback boom") := by
  refine ⟨rfl, ?_, rfl, by decide, ?_⟩
  · exact (executeAgentInternal_catches "alpha" ["t1"] ["t1"]
      (.error "model down") (.ok "unused")).1 "model down" rfl
  · exact (executeAgentInternal_catches "alpha" ["t1"] ["t1"]
      (.ok ⟨some "Agent stopped due to max iterations."⟩) (.error "fallback boom")).2.1
      ⟨some "Agent stopped due to max iterations."⟩ "fallback boom" rfl (by decide) rfl

/-- The request context: `{ input, sessionId? }`.  `input : Option String`
models a possibly missing field; a non-string input is unrepresentable in the
typed embedding (the same guard also rejects it). -/
structure AgentContext where
  input : Option String
  sessionId : Option String
deriving Repr, DecidableEq

/-- Association-list lookup, the repository's `Map.get`. -/
def assocGet {α : Type} (m : List (String × α)) (key : String) : Option α :=
  match m with
  | [] => none
  | (k, v) :: rest => if k = key then some v else assocGet rest key

/-- `AgentService.executeAgent` (lines 118-146): the precondition guards run
before the command pipeline.  The agent registry is passed in and returned —
the function performs no repository writes — and the internal execution is a
parameter (`runCommand`, the bound `executeAgentInternal` behind
`ExecuteAgentCommand`) so the theorems can show it is never consulted on the
failure paths; the catch at line 167 rethrows, so command errors propagate. -/
def AgentService.executeAgent {A : Type} (registry : List (String × A))
    (agentName : String) (context : Option AgentContext)
    (runCommand : A → AgentContext → Except String AgentResponse) :
    Except String AgentResponse × List (String × A) :=
  match context with
  | none => (.error "Context is required for agent execution", registry)
  | some ctx =>
    match ctx.input with
    | none => (.error "Valid input string is required for agent execution", registry)
    | some s =>
      if s = "" then
        (.error "Valid input string is required for agent execution", registry)
      else
        match assocGet registry agentName with
        | none => (.error ("Agent " ++ agentName ++ " not found"), registry)
        | some agent =>
          match runCommand agent ctx with
          | .ok resp => (.ok resp, registry)
          | .error e => (.error e, registry)

/-- Claim C10: `executeAgent` throws — rather than returning a degraded
envelope — when the context is absent, when the input is missing (or empty,
which the same falsiness guard rejects), and when the named agent is not
registered (naming it); in each case no pipeline stage runs (the result does
not depend on `runCommand`) and the registry is returned unchanged. -/
theorem executeAgent_preconditions {A : Type} (registry : List (String × A))
    (agentName : String) :
    (∀ runCommand, AgentService.executeAgent registry agentName none runCommand =
      (.error "Context is required for agent execution", registry)) ∧
    (∀ ctx runCommand, ctx.input = none →
      AgentService.executeAgent registry agentName (some ctx) runCommand =
        (.error "Valid input string is required for agent execution", registry)) ∧
    (∀ ctx runCommand, ctx.input = some "" →
      AgentService.executeAgent registry agentName (some ctx) runCommand =
        (.error "Valid input string is required for agent execution", registry)) ∧
    (∀ ctx s runCommand, ctx.input = some s → s ≠ "" →
      assocGet registry agentName = none →
      AgentService.executeAgent registry agentName (some ctx) runCommand =
        (.error ("Agent " ++ agentName ++ " not found"), registry)) := by
  refine ⟨?_, ?_, ?_, ?_⟩
  · intro runCommand
    rfl
  · intro ctx runCommand hin
    simp [AgentService.executeAgent, hin]
  · intro ctx runCommand hin
    simp [AgentService.executeAgent, hin]
  · intro ctx s runCommand hin hs hget
    simp [AgentService.executeAgent, hin, hs, hget]

/-- Witness for C10 at a concrete registry and contexts, with a `runCommand`
that would succeed if it were ever consulted. -/
theorem executeAgent_preconditions_witness :
    AgentService.executeAgent ([("known", 0)] : List (String × Nat)) "ghost" none
        (fun _ _ => .ok ⟨"ok", ⟨"", [], [], none, none⟩⟩) =
      (.error "Context is required for agent execution", [("known", 0)]) ∧
    ((⟨none, none⟩ : AgentContext).input = none ∧
      AgentService.executeAgent ([("known", 0)] : List (String × Nat)) "ghost"
          (some ⟨none, none⟩) (fun _ _ => .ok ⟨"ok", ⟨"", [], [], none, none⟩⟩) =
        (.error "Valid input string is required for agent execution", [("known", 0)])) ∧
    ((⟨some "", none⟩ : AgentContext).input = some "" ∧
      AgentService.executeAgent ([("known", 0)] : List (String × Nat)) "ghost"
          (some ⟨some "", none⟩) (fun _ _ => .ok ⟨"ok", ⟨"", [], [], none, none⟩⟩) =
        (.error "Valid input string is required for agent execution", [("known", 0)])) ∧
    ((⟨some "hi", none⟩ : AgentContext).input = some "hi" ∧ "hi" ≠ "" ∧
      assocGet ([("known", 0)] : List (String × Nat)) "ghost" = none ∧
      AgentService.executeAgent ([("known", 0)] : List (String × Nat)) "ghost"
          (some ⟨some "hi", none⟩) (fun _ _ => .ok ⟨"ok", ⟨"", [], [], none, none⟩⟩) =
        (.error ("Agent " ++ "ghost" ++ " not found"), [("known", 0)])) := by
  refine ⟨?_, ⟨rfl, ?_⟩, ⟨rfl, ?_⟩, ⟨rfl, by decide, by decide, ?_⟩⟩
  · exact (executeAgent_preconditions [("known", 0)] "ghost").1 _
  · exact (executeAgent_preconditions [("known", 0)] "ghost").2.1 ⟨none, none⟩ _ rfl
  · exact (executeAgent_preconditions [("known", 0)] "ghost").2.2.1 ⟨some "", none⟩ _ rfl
  · exact (executeAgent_preconditions [("known", 0)] "ghost").2.2.2 ⟨some "hi", none⟩
      "hi" _ rfl (by decide) (by decide)

end NestLang
